import Mathlib

/-!
Shallow embedding of `pkg/controllers/backup/controller.go` from the
backup-restore-operator repository.

Go dynamic values (`interface{}` as produced by JSON decoding) are modelled by
the inductive `Value`; a Go `map[string]interface{}` is an association list
`GoMap` with map-style operations `mget` / `mlookup` / `mset` / `mdelete`.
`mget` returns `Value.null` for a missing key (Go map indexing yields the nil
interface), while `mlookup` is the comma-ok presence test.

External capabilities are function parameters:
  * the discovery client (`ServerResourcesForGroupVersion`) is
    `disc : String → Except GoErr (List APIResource)`;
  * the regexp engine (`regexp.MatchString`) is
    `matcher : String → String → Except GoErr Bool` (pattern, then subject;
    an error models a malformed pattern);
  * the dynamic client (`dr.List`) is
    `lister : String → String → Except GoErr (List Unstructured)`
    (resource name, then the field selector string);
  * encryption transformers keyed by group-resource are
    `tmap : String → Option Transformer`.

Filesystem writes are recorded as `WriteEvent`s instead of touching a real
filesystem; `createResourceDir` and the file create/close are only fallible for
environmental reasons and are modelled as succeeding inside the gather phase
(the fallible steps of `OnBackupChange` itself are explicit parameters).  On an
error, write events already produced inside the failing call are not recorded;
no theorem below depends on them.
-/

/-- A Go dynamic value (`interface{}`) as produced by JSON decoding:
nil, a string, a JSON array (`[]interface{}`), or a string-keyed map
(`map[string]interface{}`). -/
inductive Value where
  | null : Value
  | str : String → Value
  | arr : List Value → Value
  | strMap : List (String × Value) → Value

/-- A Go `map[string]interface{}`. -/
def GoMap := List (String × Value)

/-- Errors: a Go `error` value, or a runtime panic from a failed type
assertion such as `metadata["namespace"].(string)` on a missing key. -/
inductive GoErr where
  | goError : String → GoErr
  | panicTypeAssert : GoErr
deriving DecidableEq

/-- Go map read `m[k]`: the nil interface when the key is absent. -/
def mlookup : GoMap → String → Option Value
  | [], _ => none
  | (k', v) :: rest, k => if k' = k then some v else mlookup rest k

/-- Go map read `m[k]` as a value (missing key yields nil). -/
def mget (m : GoMap) (k : String) : Value :=
  (mlookup m k).getD Value.null

/-- Go comma-ok presence test `_, ok := m[k]`. -/
def mcontains (m : GoMap) (k : String) : Bool :=
  (mlookup m k).isSome

/-- Go map write `m[k] = v`. -/
def mset : GoMap → String → Value → GoMap
  | [], k, v => [(k, v)]
  | (k', v') :: rest, k, v =>
      if k' = k then (k, v) :: rest else (k', v') :: mset rest k v

/-- Go map delete `delete(m, k)`. -/
def mdelete : GoMap → String → GoMap
  | [], _ => []
  | (k', v') :: rest, k =>
      if k' = k then mdelete rest k else (k', v') :: mdelete rest k

/-- The Go nil test `v == nil` on an interface value. -/
def Value.isNull : Value → Bool
  | .null => true
  | _ => false

/-- Go type assertion `v.(map[string]interface{})`; panics otherwise. -/
def asMap : Value → Except GoErr GoMap
  | .strMap m => .ok m
  | _ => .error .panicTypeAssert

/-- Go type assertion `v.(string)`; panics otherwise. -/
def asString : Value → Except GoErr String
  | .str s => .ok s
  | _ => .error .panicTypeAssert

/-- `k8s.io/apimachinery` `APIResource`: the fields the controller reads. -/
structure APIResource where
  name : String
  group : String
  namespaced : Bool
  verbs : List String

/-- `schema.GroupVersion`. -/
structure GroupVersion where
  group : String
  version : String

/-- A `v1.BackupFilter` from the backup template. -/
structure BackupFilter where
  apiGroup : String
  kindsRegex : String
  kinds : List String
  resourceNames : List String
  resourceNameRegex : String
  namespaces : List String
  namespaceRegex : String

/-- An `unstructured.Unstructured` catalog object. -/
structure Unstructured where
  Object : GoMap

/-- Split a character list at its first `/` (Go `strings.Index(gv, "/")`). -/
def splitAtSlash : List Char → List Char × List Char
  | [] => ([], [])
  | c :: rest =>
      if c = '/' then ([], rest)
      else
        let (before, after) := splitAtSlash rest
        (c :: before, after)

/-- `schema.ParseGroupVersion`: empty or "/" yields the empty group-version;
otherwise by the number of slashes — none puts everything in the version, one
splits group from version, more is an error. -/
def parseGroupVersion (gv : String) : Except GoErr GroupVersion :=
  if gv.length = 0 || gv = "/" then .ok ⟨"", ""⟩
  else
    match gv.toList.count '/' with
    | 0 => .ok ⟨"", gv⟩
    | 1 =>
        let (g, v) := splitAtSlash gv.toList
        .ok ⟨String.mk g, String.mk v⟩
    | _ => .error (.goError ("unexpected GroupVersion string: " ++ gv))

/-- `var avoidBackupResources = map[string]bool{"pods": true}`. -/
def avoidBackupResources (name : String) : Bool :=
  name = "pods"

/-- `canListResource`. -/
def canListResource (verbs : List String) : Bool :=
  verbs.any (fun v => v = "list")

/-- `canUpdateResource`. -/
def canUpdateResource (verbs : List String) : Bool :=
  verbs.any (fun v => v = "update" || v = "patch")

/-- `skipBackup`: skip types in the avoid table or lacking list/update verbs. -/
def skipBackup (res : APIResource) : Bool :=
  if avoidBackupResources res.name then true
  else if !canListResource res.verbs then true
  else if !canUpdateResource res.verbs then true
  else false

/-- The regexp engine `regexp.MatchString pat s`. -/
def Matcher := String → String → Except GoErr Bool

/-- A total regexp engine with match function `f`. -/
def pureMatcher (f : String → String → Bool) : Matcher :=
  fun pat s => .ok (f pat s)

/-- A regexp engine for which every pattern is malformed (compile error `e`). -/
def failMatcher (e : GoErr) : Matcher :=
  fun _ _ => .error e

/-- The regex-filtering loop of `gatherResourcesForGroupVersion`: keep the
discovered resources whose name matches `filter.KindsRegex`, surfacing the
first match error. -/
def filterResourcesByRegex (matcher : Matcher) (pat : String) :
    List APIResource → Except GoErr (List APIResource)
  | [] => .ok []
  | res :: rest => do
      let matched ← matcher pat res.name
      let tail ← filterResourcesByRegex matcher pat rest
      if matched then .ok (res :: tail) else .ok tail

/-- `gatherResourcesForGroupVersion`: discovery for the filter's group/version,
then either everything (literal `"."` regex) or the regex-matched subset. -/
def gatherResourcesForGroupVersion (disc : String → Except GoErr (List APIResource))
    (matcher : Matcher) (filter : BackupFilter) : Except GoErr (List APIResource) := do
  let resources ← disc filter.apiGroup
  if filter.kindsRegex = "." then
    .ok resources
  else
    filterResourcesByRegex matcher filter.kindsRegex resources

/-- The field-selector accumulation of `gatherObjectsForResource` (lines
182–195): append `metadata.name=<n>,` for each exact resource name and, for a
namespaced type, `metadata.namespace=<ns>,` for each exact namespace.  The
source then calls `strings.TrimRight(fieldSelector, ",")` but discards its
return value, so the trailing comma is kept. -/
def buildFieldSelector (res : APIResource) (filter : BackupFilter) : String :=
  let fieldSelector :=
    filter.resourceNames.foldl (fun acc n => acc ++ "metadata.name=" ++ n ++ ",") ""
  if res.namespaced then
    filter.namespaces.foldl (fun acc ns => acc ++ "metadata.namespace=" ++ ns ++ ",") fieldSelector
  else fieldSelector

/-- The `ResourceNameRegex` post-filter loop of `gatherObjectsForResource`
(lines 204–215): keep the objects whose `metadata.name` matches. -/
def nameFilterPass (matcher : Matcher) (pat : String) :
    List Unstructured → Except GoErr (List Unstructured)
  | [] => .ok []
  | resObj :: rest => do
      let metadata ← asMap (mget resObj.Object "metadata")
      let name ← asString (mget metadata "name")
      let nameMatched ← matcher pat name
      let tail ← nameFilterPass matcher pat rest
      if nameMatched then .ok (resObj :: tail) else .ok tail

/-- The `NamespaceRegex` post-filter loop of `gatherObjectsForResource`
(lines 219–231): keep the objects whose `metadata.namespace` matches, also
collecting the matching namespaces.  Note the source runs this for every
resource type, namespaced or not; on an object without a `metadata.namespace`
string the type assertion panics. -/
def nsFilterPass (matcher : Matcher) (pat : String) :
    List Unstructured → Except GoErr (List Unstructured × List String)
  | [] => .ok ([], [])
  | resObj :: rest => do
      let metadata ← asMap (mget resObj.Object "metadata")
      let nsp ← asString (mget metadata "namespace")
      let nsMatched ← matcher pat nsp
      let (tailObjs, tailNs) ← nsFilterPass matcher pat rest
      if nsMatched then .ok (resObj :: tailObjs, nsp :: tailNs) else .ok (tailObjs, tailNs)

/-- The selection half of `gatherObjectsForResource` (lines 174–239): build the
field selector, list, apply the two regex post-filters, and expand the local
filter's namespaces.  Returns the objects handed to `writeBackupObjects`
together with the (function-local) updated filter; the Go function receives the
filter by value, so the update is never seen by the caller. -/
def selectObjects (matcher : Matcher)
    (lister : String → String → Except GoErr (List Unstructured))
    (res : APIResource) (filter : BackupFilter) :
    Except GoErr (List Unstructured × BackupFilter) := do
  let fieldSelector := buildFieldSelector res filter
  let resObjects ← lister res.name fieldSelector
  let nameFiltered ←
    if filter.resourceNameRegex ≠ "" then
      nameFilterPass matcher filter.resourceNameRegex resObjects
    else .ok []
  let (nsFiltered, filteredNs) ←
    if filter.namespaceRegex ≠ "" then
      nsFilterPass matcher filter.namespaceRegex resObjects
    else .ok ([], [])
  let filteredObjects := nameFiltered ++ nsFiltered
  let filter' :=
    if res.namespaced && filteredNs.length > 0 then
      { filter with namespaces := filter.namespaces ++ filteredNs }
    else filter
  let finalObjects :=
    if filter.namespaceRegex = "" && filter.resourceNameRegex = "" then resObjects
    else filteredObjects
  .ok (finalObjects, filter')

/-- An encryption transformer `value.Transformer.TransformToStorage`, applied
to the serialized object with the additional-authenticated-data string. -/
def Transformer := Value → String → Except GoErr Value

/-- `common.OldUIDReferenceLabel`. -/
def OldUIDReferenceLabel : String := "backupper.cattle.io/old-uid"

/-- One file produced by the backup: directory path, file name (without the
`.json` suffix) and content (plain serialized object or its encrypted form). -/
structure WriteEvent where
  dir : String
  filename : String
  content : Value

/-- `writeToBackup`: serialize the object, run it through the transformer when
one is registered (failure aborts), and record the file write. -/
def writeToBackup (resource : GoMap) (backupPath filename : String)
    (transformer : Option Transformer) (additionalAuthenticatedData : String) :
    Except GoErr WriteEvent := do
  let resourceBytes := Value.strMap resource
  let resourceBytes ←
    match transformer with
    | none => .ok resourceBytes
    | some t => t resourceBytes additionalAuthenticatedData
  .ok ⟨backupPath, filename, resourceBytes⟩

/-- The identity-preservation step of `writeBackupObjects` (lines 255–266):
when the object carries a non-nil `uid`, record it under the old-uid label,
creating the labels map when it is nil and merging into it otherwise. -/
def recordUIDLabel (metadata : GoMap) : Except GoErr GoMap := do
  let currObjLabels := mget metadata "labels"
  if !(mget metadata "uid").isNull then do
    let uid ← asString (mget metadata "uid")
    match currObjLabels with
    | Value.null => .ok (mset metadata "labels" (Value.strMap [(OldUIDReferenceLabel, Value.str uid)]))
    | _ => do
        let currLabels ← asMap currObjLabels
        .ok (mset metadata "labels" (Value.strMap (mset currLabels OldUIDReferenceLabel (Value.str uid))))
  else .ok metadata

/-- The metadata mutation of `writeBackupObjects` (lines 255–270): record a
non-nil `uid` under the old-uid label, then delete `uid`, `resourceVersion`,
`generation` and `creationTimestamp`. -/
def sanitizeMetadata (metadata : GoMap) : Except GoErr GoMap := do
  let metadata ← recordUIDLabel metadata
  .ok (mdelete (mdelete (mdelete (mdelete metadata "uid") "resourceVersion") "generation") "creationTimestamp")

/-- The per-object body of `writeBackupObjects` (lines 245–311): skip an object
with a `deletionTimestamp` and no `finalizers` key; otherwise sanitize the
metadata, duplicate the two privileged resource types under their own
top-level directory, and place the object under `owners/` when
`metadata["ownerReferences"]` is nil, else under `dependents/`. -/
def processObject (tmap : String → Option Transformer)
    (backupPath ownerDirPath dependentDirPath : String)
    (res : APIResource) (gv : GroupVersion) (resObj : Unstructured) :
    Except GoErr (List WriteEvent) := do
  let metadata ← asMap (mget resObj.Object "metadata")
  if mcontains metadata "deletionTimestamp" && !mcontains metadata "finalizers" then
    .ok []
  else do
    let objName ← asString (mget metadata "name")
    let metadata ← sanitizeMetadata metadata
    let obj := mset resObj.Object "metadata" (Value.strMap metadata)
    let gr := res.name ++ "." ++ res.group
    let encryptionTransformer := tmap gr
    let additionalAuthenticatedData := objName
    let privileged ←
      if res.name = "customresourcedefinitions" || res.name = "namespaces" then do
        let ev ← writeToBackup obj (backupPath ++ "/" ++ res.name) objName
          encryptionTransformer additionalAuthenticatedData
        .ok [ev]
      else .ok []
    let ownerRefs := mget metadata "ownerReferences"
    match ownerRefs with
    | Value.null => do
        let ev ← writeToBackup obj
          (ownerDirPath ++ "/" ++ res.name ++ "." ++ gv.group ++ "#" ++ gv.version) objName
          encryptionTransformer additionalAuthenticatedData
        .ok (privileged ++ [ev])
    | _ => do
        let ev ← writeToBackup obj
          (dependentDirPath ++ "/" ++ res.name ++ "." ++ gv.group ++ "#" ++ gv.version) objName
          encryptionTransformer additionalAuthenticatedData
        .ok (privileged ++ [ev])

/-- `writeBackupObjects`: process the selected objects in order, stopping at
the first error. -/
def writeBackupObjects (tmap : String → Option Transformer)
    (backupPath ownerDirPath dependentDirPath : String)
    (res : APIResource) (gv : GroupVersion) :
    List Unstructured → Except GoErr (List WriteEvent)
  | [] => .ok []
  | resObj :: rest => do
      let evs ← processObject tmap backupPath ownerDirPath dependentDirPath res gv resObj
      let tail ← writeBackupObjects tmap backupPath ownerDirPath dependentDirPath res gv rest
      .ok (evs ++ tail)

/-- `gatherObjectsForResource`: selection followed by writing.  The local
filter update computed by `selectObjects` is dropped here, exactly as the Go
function's by-value `filter` parameter dies when the function returns. -/
def gatherObjectsForResource (matcher : Matcher)
    (lister : String → String → Except GoErr (List Unstructured))
    (tmap : String → Option Transformer)
    (res : APIResource) (gv : GroupVersion) (filter : BackupFilter)
    (backupPath ownerDirPath dependentDirPath : String) :
    Except GoErr (List WriteEvent) := do
  let (filteredObjects, _filterLocal) ← selectObjects matcher lister res filter
  writeBackupObjects tmap backupPath ownerDirPath dependentDirPath res gv filteredObjects

/-- The inner loop of `gatherResources` (lines 126–135): for each discovered
resource, skip ineligible types, otherwise gather and write its objects. -/
def gatherLoopResources (matcher : Matcher)
    (lister : String → String → Except GoErr (List Unstructured))
    (tmap : String → Option Transformer)
    (gv : GroupVersion) (filter : BackupFilter)
    (backupPath ownerDirPath dependentDirPath : String) :
    List APIResource → Except GoErr (List WriteEvent)
  | [] => .ok []
  | res :: rest => do
      if skipBackup res then
        gatherLoopResources matcher lister tmap gv filter backupPath ownerDirPath dependentDirPath rest
      else do
        let evs ← gatherObjectsForResource matcher lister tmap res gv filter
          backupPath ownerDirPath dependentDirPath
        let tail ← gatherLoopResources matcher lister tmap gv filter backupPath ownerDirPath dependentDirPath rest
        .ok (evs ++ tail)

/-- The per-filter body of `gatherResources` (lines 109–136): resolve the
resource types, write the resolved names back into an initially-empty `Kinds`
(this is the `filters[ind] = filter` in-place slice update), then gather each
eligible type.  Returns the updated filter even when a later step fails, since
the Go slice mutation has already happened by then. -/
def processFilter (disc : String → Except GoErr (List APIResource)) (matcher : Matcher)
    (lister : String → String → Except GoErr (List Unstructured))
    (tmap : String → Option Transformer)
    (backupPath ownerDirPath dependentDirPath : String)
    (filter : BackupFilter) : BackupFilter × Except GoErr (List WriteEvent) :=
  match gatherResourcesForGroupVersion disc matcher filter with
  | .error e => (filter, .error e)
  | .ok resourceList =>
      let filter :=
        if filter.kinds.length = 0 then
          { filter with kinds := filter.kinds ++ resourceList.map (fun res => res.name) }
        else filter
      match parseGroupVersion filter.apiGroup with
      | .error e => (filter, .error e)
      | .ok gv =>
          (filter, gatherLoopResources matcher lister tmap gv filter
            backupPath ownerDirPath dependentDirPath resourceList)

/-- `gatherResources` (lines 108–138): process the filters in order.  The
result carries the write events of the successful prefix, the filter slice as
mutated so far (the realized filters), and the terminal error if any; on an
error the remaining filters are left untouched, as the Go loop returns. -/
def gatherResources (disc : String → Except GoErr (List APIResource)) (matcher : Matcher)
    (lister : String → String → Except GoErr (List Unstructured))
    (tmap : String → Option Transformer)
    (backupPath ownerDirPath dependentDirPath : String) :
    List BackupFilter → List WriteEvent × List BackupFilter × Option GoErr
  | [] => ([], [], none)
  | filter :: rest =>
      match processFilter disc matcher lister tmap backupPath ownerDirPath dependentDirPath filter with
      | (filter', .error e) => ([], filter' :: rest, some e)
      | (filter', .ok evs) =>
          let (tailEvs, tailFilters, tailErr) :=
            gatherResources disc matcher lister tmap backupPath ownerDirPath dependentDirPath rest
          (evs ++ tailEvs, filter' :: tailFilters, tailErr)

/-- The outcome of one `OnBackupChange` run: the object files written, the
realized filter list written to `filters.json` when that file was produced,
and the error value returned to the caller. -/
structure RunOutcome where
  writes : List WriteEvent
  filtersJson : Option (List BackupFilter)
  err : Option GoErr

/-- The fallible environment steps of `OnBackupChange` that precede and follow
the gather phase: the stat/mkdir calls on the backup path, the encryption
config fetch, the transformer construction, the template fetch, and the
create/write of `filters.json`. -/
structure RunEnv where
  statIsDir : Bool
  mkdirBackupPath : Option GoErr
  mkdirOwners : Option GoErr
  mkdirDependents : Option GoErr
  getConfig : Except GoErr Unit
  getTransformers : Except GoErr (String → Option Transformer)
  getTemplate : Except GoErr (List BackupFilter)
  createFiltersFile : Option GoErr
  writeFiltersFile : Option GoErr

/-- `OnBackupChange` (lines 55–106).  Mirrors the source control flow,
including the slip at lines 90–92: the error returned by `gatherResources` is
assigned to `err` but immediately overwritten by the (infallible) marshal of
the filter list, so the run proceeds to write `filters.json` and returns nil
even when the gather phase failed. -/
def OnBackupChange (env : RunEnv) (disc : String → Except GoErr (List APIResource))
    (matcher : Matcher)
    (lister : String → String → Except GoErr (List Unstructured))
    (backupPath : String) : RunOutcome :=
  if env.statIsDir then ⟨[], none, none⟩
  else match env.mkdirBackupPath with
  | some e => ⟨[], none, some e⟩
  | none =>
    let ownerDirPath := backupPath ++ "/owners"
    match env.mkdirOwners with
    | some e => ⟨[], none, some e⟩
    | none =>
      let dependentDirPath := backupPath ++ "/dependents"
      match env.mkdirDependents with
      | some e => ⟨[], none, some e⟩
      | none =>
        match env.getConfig with
        | .error e => ⟨[], none, some e⟩
        | .ok _ =>
          match env.getTransformers with
          | .error e => ⟨[], none, some e⟩
          | .ok transformerMap =>
            match env.getTemplate with
            | .error e => ⟨[], none, some e⟩
            | .ok backupFilters =>
              let (evs, realizedFilters, _gatherErr) :=
                gatherResources disc matcher lister transformerMap
                  backupPath ownerDirPath dependentDirPath backupFilters
              match env.createFiltersFile with
              | some e => ⟨evs, none, some e⟩
              | none =>
                match env.writeFiltersFile with
                | some e => ⟨evs, none, some e⟩
                | none => ⟨evs, some realizedFilters, none⟩

/-- The directories of the files produced by a successful write batch. -/
def writeDirs : Except GoErr (List WriteEvent) → List String
  | .ok evs => evs.map (fun ev => ev.dir)
  | .error _ => []

theorem mlookup_mdelete (m : GoMap) (k k' : String) :
    mlookup (mdelete m k) k' = if k' = k then none else mlookup m k' := by
  induction m with
  | nil => simp [mdelete, mlookup, ite_self]
  | cons hd tl ih =>
      obtain ⟨k₀, v₀⟩ := hd
      by_cases h₀ : k₀ = k
      · subst h₀
        rw [show mdelete ((k₀, v₀) :: tl) k₀ = mdelete tl k₀ from by simp [mdelete], ih]
        by_cases hkk : k' = k₀
        · simp [hkk]
        · have h' : ¬ k₀ = k' := fun h => hkk h.symm
          simp [hkk, mlookup, h']
      · rw [show mdelete ((k₀, v₀) :: tl) k = (k₀, v₀) :: mdelete tl k from by simp [mdelete, h₀]]
        by_cases h₁ : k₀ = k'
        · have hkk : ¬ k' = k := fun h => h₀ (h₁.trans h)
          simp [mlookup, h₁, hkk]
        · simp [mlookup, h₁, ih]

theorem mdelete_eq_self (m : GoMap) (k : String) (h : mlookup m k = none) :
    mdelete m k = m := by
  induction m with
  | nil => rfl
  | cons hd tl ih =>
      obtain ⟨k₀, v₀⟩ := hd
      by_cases h₀ : k₀ = k
      · rw [mlookup, if_pos h₀] at h
        exact absurd h (by simp)
      · rw [mlookup, if_neg h₀] at h
        simp [mdelete, h₀, ih h]

theorem mlookup_mset (m : GoMap) (k k' : String) (v : Value) :
    mlookup (mset m k v) k' = if k = k' then some v else mlookup m k' := by
  induction m with
  | nil => simp [mset, mlookup]
  | cons hd tl ih =>
      obtain ⟨k₀, v₀⟩ := hd
      by_cases h₀ : k₀ = k
      · subst h₀
        simp [mset, mlookup]
        by_cases h₁ : k₀ = k'
        · simp [h₁]
        · simp [h₁]
      · simp [mset, h₀, mlookup]
        by_cases h₁ : k₀ = k'
        · have h' : ¬ k = k' := fun h => h₀ (h₁.trans h.symm)
          simp [h₁, h']
        · simp [h₁, ih]

theorem sanitizeMetadata_ok_shape (md md' : GoMap) (h : sanitizeMetadata md = .ok md') :
    ∃ X, recordUIDLabel md = .ok X ∧
      md' = mdelete (mdelete (mdelete (mdelete X "uid") "resourceVersion") "generation") "creationTimestamp" := by
  unfold sanitizeMetadata at h
  cases hstep : recordUIDLabel md with
  | error e => rw [hstep] at h; simp [Except.bind, bind] at h
  | ok X =>
      rw [hstep] at h
      simp only [bind, Except.bind, Except.ok.injEq] at h
      exact ⟨X, rfl, h.symm⟩

theorem sanitizeMetadata_fixed (m : GoMap)
    (hu : mlookup m "uid" = none) (hr : mlookup m "resourceVersion" = none)
    (hg : mlookup m "generation" = none) (hc : mlookup m "creationTimestamp" = none) :
    sanitizeMetadata m = .ok m := by
  have hnull : mget m "uid" = Value.null := by simp [mget, hu]
  have hrec : recordUIDLabel m = .ok m := by
    unfold recordUIDLabel
    simp [hnull, Value.isNull]
  unfold sanitizeMetadata
  rw [hrec]
  simp only [bind, Except.bind]
  rw [mdelete_eq_self m "uid" hu, mdelete_eq_self m "resourceVersion" hr,
    mdelete_eq_self m "generation" hg, mdelete_eq_self m "creationTimestamp" hc]

/-- C9: sanitization is idempotent — applying the classifier's metadata
sanitization (uid-to-label recording followed by removal of `uid`,
`resourceVersion`, `generation`, `creationTimestamp`) to an already-sanitized
metadata map returns it unchanged: no stripped field reappears and the labels
map is not modified again. -/
theorem sanitizeMetadata_idempotent (md md' : GoMap) (h : sanitizeMetadata md = .ok md') :
    sanitizeMetadata md' = .ok md' := by
  obtain ⟨X, _, hshape⟩ := sanitizeMetadata_ok_shape md md' h
  subst hshape
  apply sanitizeMetadata_fixed <;> simp [mlookup_mdelete]

/-- Witness for C9 at a concrete object: the metadata of an object with
`uid = "abc-123"` sanitizes to a map carrying the old-uid label, and
sanitizing that result again returns it unchanged. -/
theorem sanitizeMetadata_idempotent_witness :
    sanitizeMetadata [("name", Value.str "a"), ("labels", Value.strMap [(OldUIDReferenceLabel, Value.str "abc-123")])]
      = .ok [("name", Value.str "a"), ("labels", Value.strMap [(OldUIDReferenceLabel, Value.str "abc-123")])] :=
  sanitizeMetadata_idempotent [("name", Value.str "a"), ("uid", Value.str "abc-123")] _ rfl

theorem filterResourcesByRegex_pure (f : String → String → Bool) (pat : String) :
    ∀ rs : List APIResource,
      filterResourcesByRegex (pureMatcher f) pat rs
        = .ok (rs.filter (fun res => f pat res.name))
  | [] => rfl
  | res :: rest => by
      rw [filterResourcesByRegex]
      simp only [pureMatcher, bind, Except.bind, filterResourcesByRegex_pure f pat rest]
      cases h : f pat res.name <;> simp [List.filter, h]

theorem filterResourcesByRegex_fail (e : GoErr) (pat : String) (res : APIResource)
    (rest : List APIResource) :
    filterResourcesByRegex (failMatcher e) pat (res :: rest) = .error e := by
  rw [filterResourcesByRegex]
  simp [failMatcher, bind, Except.bind]

/-- C7: filter resolution over the discovery result — a literal "." kinds
regex resolves to the full discovery result (for any regexp engine); with a
well-formed pattern the resolved set is exactly the discovered types whose
name matches; and a malformed pattern (the engine fails on it) surfaces the
engine's error instead of silently skipping types. -/
theorem gatherResourcesForGroupVersion_spec
    (disc : String → Except GoErr (List APIResource))
    (f : String → String → Bool) (e : GoErr) (filter : BackupFilter)
    (rs : List APIResource) (hdisc : disc filter.apiGroup = .ok rs) :
    (filter.kindsRegex = "." →
      ∀ matcher : Matcher, gatherResourcesForGroupVersion disc matcher filter = .ok rs)
    ∧ (filter.kindsRegex ≠ "." →
      gatherResourcesForGroupVersion disc (pureMatcher f) filter
        = .ok (rs.filter (fun res => f filter.kindsRegex res.name)))
    ∧ (filter.kindsRegex ≠ "." → rs ≠ [] →
      gatherResourcesForGroupVersion disc (failMatcher e) filter = .error e) := by
  refine ⟨fun hdot matcher => ?_, fun hne => ?_, fun hne hrs => ?_⟩
  · unfold gatherResourcesForGroupVersion
    rw [hdisc]
    simp [bind, Except.bind, hdot]
  · unfold gatherResourcesForGroupVersion
    rw [hdisc]
    simp [bind, Except.bind, hne, filterResourcesByRegex_pure]
  · unfold gatherResourcesForGroupVersion
    rw [hdisc]
    cases rs with
    | nil => exact absurd rfl hrs
    | cons res rest =>
        simp [bind, Except.bind, hne, filterResourcesByRegex_fail]

/-- The "v1" catalog of the spec's scenario: pods, services, secrets, all
namespaced and listable/updatable. -/
def podsRes : APIResource := ⟨"pods", "", true, ["list", "update"]⟩

def servicesRes : APIResource := ⟨"services", "", true, ["list", "update"]⟩

def secretsRes : APIResource := ⟨"secrets", "", true, ["list", "update"]⟩

/-- A namespaced custom resource type used in concrete runs. -/
def widgetsRes : APIResource := ⟨"widgets", "example.com", true, ["list", "update"]⟩

/-- A non-namespaced resource type used in concrete runs. -/
def clusterRes : APIResource := ⟨"clusterthings", "example.com", false, ["list", "update"]⟩

/-- A concrete match function standing for the regexp patterns appearing in
the scenarios (the regexp engine is an external capability; this fixes its
behavior on the patterns the scenarios use). -/
def scenarioMatch (pat s : String) : Bool :=
  if pat = "^(pods|services)$" then s = "pods" || s = "services"
  else if pat = "^prod" then s = "prod-a" || s = "prod-b"
  else false

/-- Discovery for the scenario catalog: group/version "v1" with pods,
services and secrets. -/
def discV1 : String → Except GoErr (List APIResource) :=
  fun gv => if gv = "v1" then .ok [podsRes, servicesRes, secretsRes]
    else .error (.goError "the server could not find the requested resource")

/-- The scenario filter `{apiGroupVersion: "v1", kindsRegex: "^(pods|services)$"}`
with an initially empty kinds list. -/
def scenarioFilter : BackupFilter := ⟨"v1", "^(pods|services)$", [], [], "", [], ""⟩

/-- A lister with no objects. -/
def listerEmpty : String → String → Except GoErr (List Unstructured) :=
  fun _ _ => .ok []

/-- An empty encryption configuration: every object is stored in the clear. -/
def tmapNone : String → Option Transformer :=
  fun _ => none

/-- Witness for C7 on the scenario catalog: the pattern `^(pods|services)$`
resolves to pods and services; with it replaced by "." everything is resolved;
and with a failing engine the resolution errors out. -/
theorem gatherResourcesForGroupVersion_spec_witness :
    gatherResourcesForGroupVersion discV1 (pureMatcher scenarioMatch) scenarioFilter
        = .ok [podsRes, servicesRes]
    ∧ gatherResourcesForGroupVersion discV1 (failMatcher (.goError "bad pattern"))
        { scenarioFilter with kindsRegex := "." } = .ok [podsRes, servicesRes, secretsRes]
    ∧ gatherResourcesForGroupVersion discV1 (failMatcher (.goError "bad pattern")) scenarioFilter
        = .error (.goError "bad pattern") := by
  have h₁ := gatherResourcesForGroupVersion_spec discV1 scenarioMatch (.goError "bad pattern")
    scenarioFilter [podsRes, servicesRes, secretsRes] rfl
  have h₂ := gatherResourcesForGroupVersion_spec discV1 scenarioMatch (.goError "bad pattern")
    { scenarioFilter with kindsRegex := "." } [podsRes, servicesRes, secretsRes] rfl
  refine ⟨(h₁.2.1 (by decide)).trans (by rfl), h₂.1 rfl _, h₁.2.2 (by decide) (by simp)⟩

/-- C3 counterexample: in the spec's scenario — filter
`{apiGroupVersion: "v1", kindsRegex: "^(pods|services)$"}` over a catalog
exposing pods, services, secrets — the realized kinds list written back into
the filter (and hence into filters.json) is `["pods", "services"]`, not the
claimed `["services"]`: the policy-excluded `pods` type appears. -/
theorem gatherResources_scenario_kinds :
    (gatherResources discV1 (pureMatcher scenarioMatch) listerEmpty tmapNone
        "b" "b/owners" "b/dependents" [scenarioFilter]).2.1
      = [⟨"v1", "^(pods|services)$", ["pods", "services"], [], "", [], ""⟩]
    ∧ (["pods", "services"] : List String) ≠ ["services"] :=
  ⟨by rfl, by decide⟩

/-- C3 amended: for a filter whose kinds list is initially empty, the kinds
written back into the realized filter are exactly the names of all discovered
resource types matched by the kinds regex — including types that are then
excluded by policy or for lacking verbs, since the write-back happens before
the eligibility gate. -/
theorem processFilter_kinds_writeback
    (disc : String → Except GoErr (List APIResource)) (matcher : Matcher)
    (lister : String → String → Except GoErr (List Unstructured))
    (tmap : String → Option Transformer) (b oD dD : String)
    (filter : BackupFilter) (rl : List APIResource)
    (hres : gatherResourcesForGroupVersion disc matcher filter = .ok rl)
    (hkinds : filter.kinds = []) :
    (processFilter disc matcher lister tmap b oD dD filter).1.kinds
      = rl.map (fun res => res.name) := by
  unfold processFilter
  rw [hres]
  simp only [hkinds, List.length_nil, List.nil_append]
  split <;> rfl

/-- Witness for the amended C3 on the scenario catalog: the realized kinds of
the scenario filter are the two regex-matched type names (pods included). -/
theorem processFilter_kinds_writeback_witness :
    (processFilter discV1 (pureMatcher scenarioMatch) listerEmpty tmapNone
        "b" "b/owners" "b/dependents" scenarioFilter).1.kinds
      = ["pods", "services"] :=
  (processFilter_kinds_writeback discV1 (pureMatcher scenarioMatch) listerEmpty tmapNone
    "b" "b/owners" "b/dependents" scenarioFilter [podsRes, servicesRes] rfl rfl).trans rfl

theorem recordUIDLabel_shape (md X : GoMap) (h : recordUIDLabel md = .ok X) :
    X = md ∨ ∃ v, X = mset md "labels" v := by
  unfold recordUIDLabel at h
  by_cases hu : (mget md "uid").isNull = true
  · left
    simp [hu] at h
    exact h.symm
  · right
    have hu' : (mget md "uid").isNull = false := by
      revert hu; cases (mget md "uid").isNull <;> simp
    simp only [hu', Bool.not_false, if_true] at h
    cases hs : asString (mget md "uid") with
    | error e => rw [hs] at h; simp [bind, Except.bind] at h
    | ok uid =>
        rw [hs] at h
        simp only [bind, Except.bind] at h
        cases hl : mget md "labels" with
        | null => rw [hl] at h; simp at h; exact ⟨_, h.symm⟩
        | str s => rw [hl] at h; simp [asMap, bind, Except.bind] at h
        | arr l => rw [hl] at h; simp [asMap, bind, Except.bind] at h
        | strMap m => rw [hl] at h; simp [asMap, bind, Except.bind] at h; exact ⟨_, h.symm⟩

theorem mget_recordUIDLabel (md X : GoMap) (k : String) (hk : ¬ "labels" = k)
    (h : recordUIDLabel md = .ok X) : mget X k = mget md k := by
  rcases recordUIDLabel_shape md X h with heq | ⟨v, heq⟩
  · rw [heq]
  · rw [heq]
    simp [mget, mlookup_mset, hk]

theorem mget_sanitizeMetadata (md md' : GoMap) (k : String)
    (hk₁ : ¬ "labels" = k) (hk₂ : ¬ k = "uid") (hk₃ : ¬ k = "resourceVersion")
    (hk₄ : ¬ k = "generation") (hk₅ : ¬ k = "creationTimestamp")
    (h : sanitizeMetadata md = .ok md') : mget md' k = mget md k := by
  obtain ⟨X, hrec, hshape⟩ := sanitizeMetadata_ok_shape md md' h
  subst hshape
  rw [show ∀ Y : GoMap, mget (mdelete (mdelete (mdelete (mdelete Y "uid") "resourceVersion")
      "generation") "creationTimestamp") k = mget Y k from
    fun Y => by simp [mget, mlookup_mdelete, hk₂, hk₃, hk₄, hk₅]]
  exact mget_recordUIDLabel md X k hk₁ hrec

/-- C2 amended: a retained object of a non-privileged resource type produces
exactly one write, and the partition is determined solely by the value of
`metadata["ownerReferences"]`: the nil interface (key absent or JSON null)
goes to the owners directory, any present non-nil value — including an
explicitly empty list — goes to the dependents directory. -/
theorem processObject_placement (tmap : String → Option Transformer)
    (b oD dD : String) (res : APIResource) (gv : GroupVersion)
    (resObj : Unstructured) (md md' : GoMap) (objName : String)
    (hpriv : ¬ res.name = "customresourcedefinitions" ∧ ¬ res.name = "namespaces")
    (hmd : asMap (mget resObj.Object "metadata") = .ok md)
    (hkeep : mcontains md "deletionTimestamp" = false ∨ mcontains md "finalizers" = true)
    (hname : asString (mget md "name") = .ok objName)
    (hsan : sanitizeMetadata md = .ok md')
    (htr : tmap (res.name ++ "." ++ res.group) = none) :
    processObject tmap b oD dD res gv resObj
      = .ok [⟨(if (mget md "ownerReferences").isNull then oD else dD)
                ++ "/" ++ res.name ++ "." ++ gv.group ++ "#" ++ gv.version,
              objName,
              Value.strMap (mset resObj.Object "metadata" (Value.strMap md'))⟩] := by
  have hskip : (mcontains md "deletionTimestamp" && !mcontains md "finalizers") = false := by
    rcases hkeep with h | h <;> simp [h]
  have hown : mget md' "ownerReferences" = mget md "ownerReferences" :=
    mget_sanitizeMetadata md md' "ownerReferences"
      (by decide) (by decide) (by decide) (by decide) (by decide) hsan
  unfold processObject
  rw [hmd]
  simp only [bind, Except.bind, hskip, Bool.false_eq_true, if_false, hname, hsan,
    hpriv.1, hpriv.2, Bool.false_or, htr, hown]
  rw [if_neg (by simp [hpriv.1, hpriv.2])]
  simp only [bind, Except.bind, writeToBackup, htr, List.nil_append]
  cases hv : mget md "ownerReferences" <;> simp [Value.isNull]

/-- An object of the widgets type carrying an explicitly empty
`ownerReferences` list. -/
def widgetEmptyOwnerRefs : Unstructured :=
  ⟨[("metadata", Value.strMap [("name", Value.str "a"), ("namespace", Value.str "ns1"),
      ("ownerReferences", Value.arr [])])]⟩

/-- C2 counterexample: an object whose `metadata.ownerReferences` is present
but an empty list is written under `dependents/`, not under `owners/` as the
claim states — the code tests presence of the key, not emptiness of the
list. -/
theorem processObject_emptyOwnerRefs_dependents :
    writeDirs (processObject tmapNone "b" "b/owners" "b/dependents" widgetsRes
        ⟨"example.com", "v1"⟩ widgetEmptyOwnerRefs)
      = ["b/dependents/widgets.example.com#v1"]
    ∧ "b/dependents/widgets.example.com#v1" ≠ "b/owners/widgets.example.com#v1"
    ∧ mget [("name", Value.str "a"), ("namespace", Value.str "ns1"),
        ("ownerReferences", Value.arr [])] "ownerReferences" = Value.arr [] :=
  ⟨by rfl, by decide, by rfl⟩

/-- Witness for the amended C2 at the concrete object with an empty
`ownerReferences` list: exactly one write, into the dependents partition. -/
theorem processObject_placement_witness :
    processObject tmapNone "b" "b/owners" "b/dependents" widgetsRes
        ⟨"example.com", "v1"⟩ widgetEmptyOwnerRefs
      = .ok [⟨"b/dependents/widgets.example.com#v1", "a",
          Value.strMap widgetEmptyOwnerRefs.Object⟩] := by
  have h := processObject_placement tmapNone "b" "b/owners" "b/dependents" widgetsRes
    ⟨"example.com", "v1"⟩ widgetEmptyOwnerRefs
    [("name", Value.str "a"), ("namespace", Value.str "ns1"), ("ownerReferences", Value.arr [])]
    [("name", Value.str "a"), ("namespace", Value.str "ns1"), ("ownerReferences", Value.arr [])]
    "a" ⟨by decide, by decide⟩ rfl (Or.inl rfl) rfl rfl rfl
  exact h.trans (by rfl)

theorem processObject_not_skipped_ne_nil (tmap : String → Option Transformer)
    (b oD dD : String) (res : APIResource) (gv : GroupVersion)
    (resObj : Unstructured) (md : GoMap)
    (hmd : asMap (mget resObj.Object "metadata") = .ok md)
    (hns : (mcontains md "deletionTimestamp" && !mcontains md "finalizers") = false)
    (l : List WriteEvent) (h : processObject tmap b oD dD res gv resObj = .ok l) :
    l ≠ [] := by
  unfold processObject at h
  rw [hmd] at h
  simp only [bind, Except.bind] at h
  rw [if_neg (by simp [hns])] at h
  cases hn : asString (mget md "name") with
  | error e => rw [hn] at h; simp at h
  | ok objName =>
      rw [hn] at h
      simp only [bind, Except.bind] at h
      cases hs : sanitizeMetadata md with
      | error e => rw [hs] at h; simp at h
      | ok md' =>
          rw [hs] at h
          simp only [bind, Except.bind] at h
          by_cases hp : (res.name = "customresourcedefinitions" ∨ res.name = "namespaces")
          · rw [if_pos (by simp [hp])] at h
            cases hw : writeToBackup (mset resObj.Object "metadata" (Value.strMap md'))
                (b ++ "/" ++ res.name) objName (tmap (res.name ++ "." ++ res.group)) objName with
            | error e => rw [hw] at h; simp at h
            | ok ev =>
                rw [hw] at h
                simp only [bind, Except.bind] at h
                cases hv : mget md' "ownerReferences" with
                | null =>
                    rw [hv] at h
                    cases hw₂ : writeToBackup (mset resObj.Object "metadata" (Value.strMap md'))
                        (oD ++ "/" ++ res.name ++ "." ++ gv.group ++ "#" ++ gv.version) objName
                        (tmap (res.name ++ "." ++ res.group)) objName with
                    | error e => rw [hw₂] at h; simp at h
                    | ok ev₂ => rw [hw₂] at h; simp at h; subst h; simp
                | str s =>
                    rw [hv] at h
                    cases hw₂ : writeToBackup (mset resObj.Object "metadata" (Value.strMap md'))
                        (dD ++ "/" ++ res.name ++ "." ++ gv.group ++ "#" ++ gv.version) objName
                        (tmap (res.name ++ "." ++ res.group)) objName with
                    | error e => rw [hw₂] at h; simp at h
                    | ok ev₂ => rw [hw₂] at h; simp at h; subst h; simp
                | arr vs =>
                    rw [hv] at h
                    cases hw₂ : writeToBackup (mset resObj.Object "metadata" (Value.strMap md'))
                        (dD ++ "/" ++ res.name ++ "." ++ gv.group ++ "#" ++ gv.version) objName
                        (tmap (res.name ++ "." ++ res.group)) objName with
                    | error e => rw [hw₂] at h; simp at h
                    | ok ev₂ => rw [hw₂] at h; simp at h; subst h; simp
                | strMap m =>
                    rw [hv] at h
                    cases hw₂ : writeToBackup (mset resObj.Object "metadata" (Value.strMap md'))
                        (dD ++ "/" ++ res.name ++ "." ++ gv.group ++ "#" ++ gv.version) objName
                        (tmap (res.name ++ "." ++ res.group)) objName with
                    | error e => rw [hw₂] at h; simp at h
                    | ok ev₂ => rw [hw₂] at h; simp at h; subst h; simp
          · have hp₁ : ¬ res.name = "customresourcedefinitions" := fun hh => hp (Or.inl hh)
            have hp₂ : ¬ res.name = "namespaces" := fun hh => hp (Or.inr hh)
            rw [if_neg (by simp [hp₁, hp₂])] at h
            cases hv : mget md' "ownerReferences" with
            | null =>
                rw [hv] at h
                cases hw₂ : writeToBackup (mset resObj.Object "metadata" (Value.strMap md'))
                    (oD ++ "/" ++ res.name ++ "." ++ gv.group ++ "#" ++ gv.version) objName
                    (tmap (res.name ++ "." ++ res.group)) objName with
                | error e => rw [hw₂] at h; simp at h
                | ok ev₂ => rw [hw₂] at h; simp at h; subst h; simp
            | str s =>
                rw [hv] at h
                cases hw₂ : writeToBackup (mset resObj.Object "metadata" (Value.strMap md'))
                    (dD ++ "/" ++ res.name ++ "." ++ gv.group ++ "#" ++ gv.version) objName
                    (tmap (res.name ++ "." ++ res.group)) objName with
                | error e => rw [hw₂] at h; simp at h
                | ok ev₂ => rw [hw₂] at h; simp at h; subst h; simp
            | arr vs =>
                rw [hv] at h
                cases hw₂ : writeToBackup (mset resObj.Object "metadata" (Value.strMap md'))
                    (dD ++ "/" ++ res.name ++ "." ++ gv.group ++ "#" ++ gv.version) objName
                    (tmap (res.name ++ "." ++ res.group)) objName with
                | error e => rw [hw₂] at h; simp at h
                | ok ev₂ => rw [hw₂] at h; simp at h; subst h; simp
            | strMap m =>
                rw [hv] at h
                cases hw₂ : writeToBackup (mset resObj.Object "metadata" (Value.strMap md'))
                    (dD ++ "/" ++ res.name ++ "." ++ gv.group ++ "#" ++ gv.version) objName
                    (tmap (res.name ++ "." ++ res.group)) objName with
                | error e => rw [hw₂] at h; simp at h
                | ok ev₂ => rw [hw₂] at h; simp at h; subst h; simp

/-- C5 amended: a fetched object is excluded from the output (its processing
writes nothing) if and only if its metadata has a `deletionTimestamp` key and
no `finalizers` key at all; an object whose `finalizers` key is present —
even holding an empty list — is written. -/
theorem processObject_skip_iff (tmap : String → Option Transformer)
    (b oD dD : String) (res : APIResource) (gv : GroupVersion)
    (resObj : Unstructured) (md : GoMap)
    (hmd : asMap (mget resObj.Object "metadata") = .ok md) :
    processObject tmap b oD dD res gv resObj = .ok []
      ↔ (mcontains md "deletionTimestamp" = true ∧ mcontains md "finalizers" = false) := by
  constructor
  · intro h
    by_contra hc
    have hns : (mcontains md "deletionTimestamp" && !mcontains md "finalizers") = false := by
      cases hdt : mcontains md "deletionTimestamp" <;>
        cases hf : mcontains md "finalizers" <;> simp_all
    exact processObject_not_skipped_ne_nil tmap b oD dD res gv resObj md hmd hns [] h rfl
  · intro hcond
    unfold processObject
    rw [hmd]
    simp [bind, Except.bind, hcond.1, hcond.2]

/-- An object being deleted, with an explicitly empty finalizers list. -/
def widgetDeletingEmptyFinalizers : Unstructured :=
  ⟨[("metadata", Value.strMap [("name", Value.str "a"),
      ("deletionTimestamp", Value.str "2020-01-01T00:00:00Z"),
      ("finalizers", Value.arr [])])]⟩

/-- C5 counterexample: an object with `deletionTimestamp` set and `finalizers`
present but equal to the empty list is written into the output tree (here
into owners/), though the claim says it is excluded — the code only tests
presence of the `finalizers` key. -/
theorem processObject_deleting_emptyFinalizers_written :
    writeDirs (processObject tmapNone "b" "b/owners" "b/dependents" widgetsRes
        ⟨"example.com", "v1"⟩ widgetDeletingEmptyFinalizers)
      = ["b/owners/widgets.example.com#v1"]
    ∧ (["b/owners/widgets.example.com#v1"] : List String) ≠ [] :=
  ⟨by rfl, by decide⟩

/-- An object being deleted with no finalizers key. -/
def widgetDeleting : Unstructured :=
  ⟨[("metadata", Value.strMap [("name", Value.str "a"),
      ("deletionTimestamp", Value.str "2020-01-01T00:00:00Z")])]⟩

/-- Witness for the amended C5: a concrete deleting object with no finalizers
key is skipped — no write is produced for it. -/
theorem processObject_skip_iff_witness :
    processObject tmapNone "b" "b/owners" "b/dependents" widgetsRes
        ⟨"example.com", "v1"⟩ widgetDeleting = .ok [] :=
  (processObject_skip_iff tmapNone "b" "b/owners" "b/dependents" widgetsRes
    ⟨"example.com", "v1"⟩ widgetDeleting _ rfl).mpr ⟨rfl, rfl⟩

/-- A run environment in which every filesystem and client step succeeds and
the backup template holds the scenario filter. -/
def healthyEnv : RunEnv :=
  ⟨false, none, none, none, .ok (), .ok tmapNone, .ok [scenarioFilter], none, none⟩

/-- A discovery client that fails for every group/version. -/
def discFail : String → Except GoErr (List APIResource) :=
  fun _ => .error (.goError "the server is currently unable to handle the request")

/-- C1: evaluation at the failing input.  When discovery (a gather-phase
component) fails, `gatherResources` does surface the error, but
`OnBackupChange` overwrites it (lines 90–92): the run still writes
`filters.json` and returns nil to the caller, contradicting the abort-on-
failure claim. -/
theorem OnBackupChange_swallows_gather_error :
    (gatherResources discFail (pureMatcher scenarioMatch) listerEmpty tmapNone
        "b" "b/owners" "b/dependents" [scenarioFilter]).2.2
      = some (.goError "the server is currently unable to handle the request")
    ∧ (OnBackupChange healthyEnv discFail (pureMatcher scenarioMatch) listerEmpty "b").err = none
    ∧ (OnBackupChange healthyEnv discFail (pureMatcher scenarioMatch) listerEmpty "b").filtersJson
      = some [scenarioFilter] :=
  ⟨rfl, rfl, rfl⟩

/-- A filter with a namespace regex over the widgets group/version. -/
def nsFilter : BackupFilter := ⟨"example.com/v1", ".", ["widgets"], [], "", [], "^prod"⟩

/-- A widgets object living in namespace "prod-a". -/
def prodObj : Unstructured :=
  ⟨[("metadata", Value.strMap [("name", Value.str "a"), ("namespace", Value.str "prod-a")])]⟩

/-- Discovery for the widgets catalog. -/
def discW : String → Except GoErr (List APIResource) :=
  fun gv => if gv = "example.com/v1" then .ok [widgetsRes]
    else .error (.goError "the server could not find the requested resource")

/-- A lister returning the single prod-a widgets object. -/
def listerW : String → String → Except GoErr (List Unstructured) :=
  fun _ _ => .ok [prodObj]

/-- A healthy run environment whose template holds the namespace-regex
filter. -/
def envW : RunEnv :=
  ⟨false, none, none, none, .ok (), .ok tmapNone, .ok [nsFilter], none, none⟩

/-- C4: evaluation at the failing input.  Inside the selection the namespace
regex matches "prod-a" and the function-local filter is expanded with it, but
`gatherObjectsForResource` receives the filter by value, so a successful full
run persists the original filter with `namespaces` still empty: the expansion
never reaches `filters.json`. -/
theorem OnBackupChange_namespace_expansion_dropped :
    selectObjects (pureMatcher scenarioMatch) listerW widgetsRes nsFilter
      = .ok ([prodObj], ⟨"example.com/v1", ".", ["widgets"], [], "", ["prod-a"], "^prod"⟩)
    ∧ (OnBackupChange envW discW (pureMatcher scenarioMatch) listerW "b").err = none
    ∧ (OnBackupChange envW discW (pureMatcher scenarioMatch) listerW "b").filtersJson
      = some [nsFilter]
    ∧ nsFilter.namespaces = [] :=
  ⟨by rfl, by rfl, by rfl, rfl⟩

/-- An object of the non-namespaced type (no `metadata.namespace` field). -/
def clusterObj : Unstructured :=
  ⟨[("metadata", Value.strMap [("name", Value.str "c1")])]⟩

/-- A filter with both exact namespaces and a namespace regex, aimed at the
non-namespaced type. -/
def clusterFilter : BackupFilter :=
  ⟨"example.com/v1", ".", ["clusterthings"], [], "", ["ns1"], "^prod"⟩

/-- A lister returning the single non-namespaced object. -/
def listerC : String → String → Except GoErr (List Unstructured) :=
  fun _ _ => .ok [clusterObj]

/-- C8: evaluation at the failing input.  For a non-namespaced resource type
the exact-namespace constraint is indeed ignored (the field selector stays
empty), but the namespace-regex post-filter is not guarded by the namespaced
flag: on an object with no `metadata.namespace` field the string type
assertion panics, so selection fails instead of ignoring the constraint. -/
theorem selectObjects_nonNamespaced_nsRegex_panics :
    selectObjects (pureMatcher scenarioMatch) listerC clusterRes clusterFilter
      = .error .panicTypeAssert
    ∧ buildFieldSelector clusterRes clusterFilter = "" :=
  ⟨by rfl, by rfl⟩

theorem foldl_append_comma (pre : String) :
    ∀ (l : List String) (acc : String), l ≠ [] →
      ∃ s, l.foldl (fun a x => a ++ pre ++ x ++ ",") acc = s ++ ","
  | [], _, h => absurd rfl h
  | x :: rest, acc, _ => by
      rw [List.foldl_cons]
      cases rest with
      | nil => exact ⟨acc ++ pre ++ x, rfl⟩
      | cons y t =>
          exact foldl_append_comma pre (y :: t) (acc ++ pre ++ x ++ ",") (by simp)

theorem foldl_append_comma_acc (pre s : String) :
    ∀ l : List String, ∃ t, l.foldl (fun a x => a ++ pre ++ x ++ ",") (s ++ ",") = t ++ ","
  | [] => ⟨s, rfl⟩
  | x :: rest => foldl_append_comma pre (x :: rest) (s ++ ",") (by simp)

theorem data_append_comma (s : String) : (s ++ ",").data = s.data ++ [','] := by
  cases s with
  | mk data => rfl

/-- C10: whenever a filter supplies an exact resource name, or (for a
namespaced type) an exact namespace, the built field selector ends in a
comma — the trailing separator appended with each fragment is never removed
since the `strings.TrimRight` result is discarded; and the string handed to
the listing capability by the selection step is exactly this selector (probed
with a lister that reports the selector it receives). -/
theorem buildFieldSelector_trailing_comma (matcher : Matcher)
    (res : APIResource) (filter : BackupFilter)
    (h : filter.resourceNames ≠ [] ∨ (res.namespaced = true ∧ filter.namespaces ≠ [])) :
    (buildFieldSelector res filter).data.getLast? = some ','
    ∧ selectObjects matcher (fun _ s => .error (.goError s)) res filter
        = .error (.goError (buildFieldSelector res filter)) := by
  constructor
  · have key : ∃ s, buildFieldSelector res filter = s ++ "," := by
      unfold buildFieldSelector
      rcases h with h₁ | ⟨h₂, h₃⟩
      · obtain ⟨s, hs⟩ := foldl_append_comma "metadata.name=" filter.resourceNames "" h₁
        cases hn : res.namespaced
        · exact ⟨s, by simp only [Bool.false_eq_true, if_false]; exact hs⟩
        · simp only [if_true]
          rw [hs]
          exact foldl_append_comma_acc "metadata.namespace=" s filter.namespaces
      · simp only [h₂, if_true]
        exact foldl_append_comma "metadata.namespace=" filter.namespaces _ h₃
    obtain ⟨s, hs⟩ := key
    rw [hs, data_append_comma, List.getLast?_concat]
  · unfold selectObjects
    simp [bind, Except.bind]

/-- A filter supplying one exact resource name. -/
def c10Filter : BackupFilter := ⟨"v1", ".", ["widgets"], ["a"], "", [], ""⟩

/-- Witness for C10: with one exact resource name the selector is
`metadata.name=a,` — it ends in the separator, and the probing lister
receives exactly that string. -/
theorem buildFieldSelector_trailing_comma_witness :
    (buildFieldSelector widgetsRes c10Filter).data.getLast? = some ','
    ∧ selectObjects (pureMatcher scenarioMatch) (fun _ s => .error (.goError s))
        widgetsRes c10Filter = .error (.goError (buildFieldSelector widgetsRes c10Filter)) :=
  buildFieldSelector_trailing_comma (pureMatcher scenarioMatch) widgetsRes c10Filter
    (Or.inl (by decide))

theorem nameFilterPass_pure (f : String → String → Bool) (pat : String)
    (mds : Unstructured → GoMap) (names : Unstructured → String) :
    ∀ l : List Unstructured,
      (∀ o ∈ l, asMap (mget o.Object "metadata") = .ok (mds o)
        ∧ asString (mget (mds o) "name") = .ok (names o)) →
      nameFilterPass (pureMatcher f) pat l = .ok (l.filter (fun o => f pat (names o)))
  | [], _ => rfl
  | o :: rest, hx => by
      obtain ⟨hm, hn⟩ := hx o (by simp)
      rw [nameFilterPass, hm]
      simp only [bind, Except.bind, hn, pureMatcher]
      rw [nameFilterPass_pure f pat mds names rest (fun o' ho' => hx o' (by simp [ho']))]
      cases hfb : f pat (names o) <;> simp [List.filter_cons, hfb]

theorem nsFilterPass_pure (f : String → String → Bool) (pat : String)
    (mds : Unstructured → GoMap) (nss : Unstructured → String) :
    ∀ l : List Unstructured,
      (∀ o ∈ l, asMap (mget o.Object "metadata") = .ok (mds o)
        ∧ asString (mget (mds o) "namespace") = .ok (nss o)) →
      nsFilterPass (pureMatcher f) pat l
        = .ok (l.filter (fun o => f pat (nss o)),
            (l.filter (fun o => f pat (nss o))).map nss)
  | [], _ => rfl
  | o :: rest, hx => by
      obtain ⟨hm, hn⟩ := hx o (by simp)
      rw [nsFilterPass, hm]
      simp only [bind, Except.bind, hn, pureMatcher]
      rw [nsFilterPass_pure f pat mds nss rest (fun o' ho' => hx o' (by simp [ho']))]
      cases hfb : f pat (nss o) <;> simp [List.filter_cons, hfb]

/-- C6: when both `resourceNameRegex` and `namespaceRegex` are set, the
selection is the concatenation of the name-matching pass and the
namespace-matching pass over the fetched objects — a union, not an
intersection: a fetched object is selected iff it matches either pattern, an
object matching neither is excluded, and an object matching exactly one of
the two patterns appears exactly once in the result. -/
theorem selectObjects_union (f : String → String → Bool)
    (lister : String → String → Except GoErr (List Unstructured))
    (res : APIResource) (filter : BackupFilter) (resObjects : List Unstructured)
    (mds : Unstructured → GoMap) (names nss : Unstructured → String)
    (hrn : filter.resourceNameRegex ≠ "") (hns : filter.namespaceRegex ≠ "")
    (hlist : lister res.name (buildFieldSelector res filter) = .ok resObjects)
    (hx : ∀ o ∈ resObjects,
      asMap (mget o.Object "metadata") = .ok (mds o)
      ∧ asString (mget (mds o) "name") = .ok (names o)
      ∧ asString (mget (mds o) "namespace") = .ok (nss o))
    (hnd : resObjects.Nodup) :
    ∃ filter', selectObjects (pureMatcher f) lister res filter
        = .ok (resObjects.filter (fun o => f filter.resourceNameRegex (names o))
            ++ resObjects.filter (fun o => f filter.namespaceRegex (nss o)), filter')
    ∧ ∀ o ∈ resObjects,
        (o ∈ resObjects.filter (fun o' => f filter.resourceNameRegex (names o'))
            ++ resObjects.filter (fun o' => f filter.namespaceRegex (nss o'))
          ↔ (f filter.resourceNameRegex (names o) = true
              ∨ f filter.namespaceRegex (nss o) = true))
        ∧ (f filter.resourceNameRegex (names o) = true →
            f filter.namespaceRegex (nss o) = false →
            ∃ l₁ l₂, resObjects.filter (fun o' => f filter.resourceNameRegex (names o'))
                ++ resObjects.filter (fun o' => f filter.namespaceRegex (nss o'))
              = l₁ ++ o :: l₂ ∧ o ∉ l₁ ∧ o ∉ l₂)
        ∧ (f filter.resourceNameRegex (names o) = false →
            f filter.namespaceRegex (nss o) = true →
            ∃ l₁ l₂, resObjects.filter (fun o' => f filter.resourceNameRegex (names o'))
                ++ resObjects.filter (fun o' => f filter.namespaceRegex (nss o'))
              = l₁ ++ o :: l₂ ∧ o ∉ l₁ ∧ o ∉ l₂) := by
  have hA := nameFilterPass_pure f filter.resourceNameRegex mds names resObjects
    (fun o ho => ⟨(hx o ho).1, (hx o ho).2.1⟩)
  have hB := nsFilterPass_pure f filter.namespaceRegex mds nss resObjects
    (fun o ho => ⟨(hx o ho).1, (hx o ho).2.2⟩)
  refine ⟨if res.namespaced
        && ((resObjects.filter (fun o => f filter.namespaceRegex (nss o))).map nss).length > 0
      then { filter with namespaces := filter.namespaces
              ++ (resObjects.filter (fun o => f filter.namespaceRegex (nss o))).map nss }
      else filter, ?_, ?_⟩
  · unfold selectObjects
    simp only [bind, Except.bind, hlist, hA, hB, hrn, hns, ne_eq, not_false_eq_true,
      if_true]
    simp [hns]
  · intro o ho
    refine ⟨?_, ?_, ?_⟩
    · simp [List.mem_append, List.mem_filter, ho]
    · intro h₁ h₂
      have hoA : o ∈ resObjects.filter (fun o' => f filter.resourceNameRegex (names o')) :=
        List.mem_filter.mpr ⟨ho, h₁⟩
      obtain ⟨s, t, hst⟩ := List.append_of_mem hoA
      have hndA : (resObjects.filter (fun o' => f filter.resourceNameRegex (names o'))).Nodup :=
        hnd.filter _
      rw [hst] at hndA
      have hmid := List.nodup_middle.mp hndA
      rw [List.nodup_cons] at hmid
      have hoB : o ∉ resObjects.filter (fun o' => f filter.namespaceRegex (nss o')) := by
        intro hmem
        rw [List.mem_filter] at hmem
        rw [hmem.2] at h₂
        exact absurd h₂ (by simp)
      refine ⟨s, t ++ resObjects.filter (fun o' => f filter.namespaceRegex (nss o')),
        ?_, ?_, ?_⟩
      · rw [hst, List.append_assoc, List.cons_append]
      · exact fun hs => hmid.1 (List.mem_append.mpr (Or.inl hs))
      · intro hm
        rcases List.mem_append.mp hm with hm | hm
        · exact hmid.1 (List.mem_append.mpr (Or.inr hm))
        · exact hoB hm
    · intro h₁ h₂
      have hoB : o ∈ resObjects.filter (fun o' => f filter.namespaceRegex (nss o')) :=
        List.mem_filter.mpr ⟨ho, h₂⟩
      obtain ⟨s, t, hst⟩ := List.append_of_mem hoB
      have hndB : (resObjects.filter (fun o' => f filter.namespaceRegex (nss o'))).Nodup :=
        hnd.filter _
      rw [hst] at hndB
      have hmid := List.nodup_middle.mp hndB
      rw [List.nodup_cons] at hmid
      have hoA : o ∉ resObjects.filter (fun o' => f filter.resourceNameRegex (names o')) := by
        intro hmem
        rw [List.mem_filter] at hmem
        rw [hmem.2] at h₁
        exact absurd h₁ (by simp)
      refine ⟨resObjects.filter (fun o' => f filter.resourceNameRegex (names o')) ++ s, t,
        ?_, ?_, ?_⟩
      · rw [hst, List.append_assoc]
      · intro hm
        rcases List.mem_append.mp hm with hm | hm
        · exact hoA hm
        · exact hmid.1 (List.mem_append.mpr (Or.inl hm))
      · exact fun ht => hmid.1 (List.mem_append.mpr (Or.inr ht))

/-- The metadata map of an object (empty map when malformed). -/
def metaOf (o : Unstructured) : GoMap :=
  match asMap (mget o.Object "metadata") with
  | .ok md => md
  | .error _ => []

/-- The `metadata.name` string of an object (empty when malformed). -/
def nameOf (o : Unstructured) : String :=
  match asString (mget (metaOf o) "name") with
  | .ok s => s
  | .error _ => ""

/-- The `metadata.namespace` string of an object (empty when malformed). -/
def nsOf (o : Unstructured) : String :=
  match asString (mget (metaOf o) "namespace") with
  | .ok s => s
  | .error _ => ""

/-- A match function for the patterns of the both-regex scenario. -/
def c6Match (pat s : String) : Bool :=
  if pat = "^a$" then s = "a"
  else if pat = "^prod" then s = "prod-a" || s = "prod-b"
  else false

/-- Object whose name matches `^a$` but whose namespace does not match
`^prod`. -/
def c6o1 : Unstructured :=
  ⟨[("metadata", Value.strMap [("name", Value.str "a"), ("namespace", Value.str "x")])]⟩

/-- Object whose namespace matches `^prod` but whose name does not match
`^a$`. -/
def c6o2 : Unstructured :=
  ⟨[("metadata", Value.strMap [("name", Value.str "b"), ("namespace", Value.str "prod-a")])]⟩

/-- Object matching neither pattern. -/
def c6o3 : Unstructured :=
  ⟨[("metadata", Value.strMap [("name", Value.str "c"), ("namespace", Value.str "y")])]⟩

/-- A filter with both a resource-name regex and a namespace regex. -/
def c6Filter : BackupFilter := ⟨"v1", ".", ["widgets"], [], "^a$", [], "^prod"⟩

/-- A lister returning the three both-regex scenario objects. -/
def c6Lister : String → String → Except GoErr (List Unstructured) :=
  fun _ _ => .ok [c6o1, c6o2, c6o3]

theorem c6_nodup : ([c6o1, c6o2, c6o3] : List Unstructured).Nodup := by
  have h12 : c6o1 ≠ c6o2 := fun h => absurd (congrArg nameOf h) (by decide)
  have h13 : c6o1 ≠ c6o3 := fun h => absurd (congrArg nameOf h) (by decide)
  have h23 : c6o2 ≠ c6o3 := fun h => absurd (congrArg nameOf h) (by decide)
  simp [List.nodup_cons, h12, h13, h23]

/-- Witness for C6: the theorem instantiated at the three-object scenario —
name pass selects `c6o1`, namespace pass selects `c6o2`, their concatenation
is returned, `c6o3` (matching neither) is excluded, and each single-pattern
match appears exactly once. -/
theorem selectObjects_union_witness :
    ∃ filter', selectObjects (pureMatcher c6Match) c6Lister widgetsRes c6Filter
        = .ok (List.filter (fun o => c6Match c6Filter.resourceNameRegex (nameOf o)) [c6o1, c6o2, c6o3]
            ++ List.filter (fun o => c6Match c6Filter.namespaceRegex (nsOf o)) [c6o1, c6o2, c6o3], filter')
    ∧ ∀ o ∈ [c6o1, c6o2, c6o3],
        (o ∈ List.filter (fun o' => c6Match c6Filter.resourceNameRegex (nameOf o')) [c6o1, c6o2, c6o3]
            ++ List.filter (fun o' => c6Match c6Filter.namespaceRegex (nsOf o')) [c6o1, c6o2, c6o3]
          ↔ (c6Match c6Filter.resourceNameRegex (nameOf o) = true
              ∨ c6Match c6Filter.namespaceRegex (nsOf o) = true))
        ∧ (c6Match c6Filter.resourceNameRegex (nameOf o) = true →
            c6Match c6Filter.namespaceRegex (nsOf o) = false →
            ∃ l₁ l₂, List.filter (fun o' => c6Match c6Filter.resourceNameRegex (nameOf o')) [c6o1, c6o2, c6o3]
                ++ List.filter (fun o' => c6Match c6Filter.namespaceRegex (nsOf o')) [c6o1, c6o2, c6o3]
              = l₁ ++ o :: l₂ ∧ o ∉ l₁ ∧ o ∉ l₂)
        ∧ (c6Match c6Filter.resourceNameRegex (nameOf o) = false →
            c6Match c6Filter.namespaceRegex (nsOf o) = true →
            ∃ l₁ l₂, List.filter (fun o' => c6Match c6Filter.resourceNameRegex (nameOf o')) [c6o1, c6o2, c6o3]
                ++ List.filter (fun o' => c6Match c6Filter.namespaceRegex (nsOf o')) [c6o1, c6o2, c6o3]
              = l₁ ++ o :: l₂ ∧ o ∉ l₁ ∧ o ∉ l₂) :=
  selectObjects_union c6Match c6Lister widgetsRes c6Filter [c6o1, c6o2, c6o3]
    metaOf nameOf nsOf (by decide) (by decide) rfl
    (by
      intro o ho
      simp only [List.mem_cons, List.not_mem_nil, or_false] at ho
      rcases ho with h | h | h <;> subst h <;> exact ⟨rfl, rfl, rfl⟩)
    c6_nodup
